import Mathlib

/-!
Verification of the blend-file persistence/versioning specification and of the
view3d snapping operators of this repository.

The persistence engine (type registry, writer, reader, reference resolver,
versioning) is described in `spec.md` but its implementation is not among the
provided source files; it is modelled here from the spec.  The snapping
operators (`snap_sel_to_grid_exec`, `snap_selected_to_location`,
`snap_selected_to_active_exec`, `snap_curs_to_sel_ex`) are embedded from the
view3d snapping source file.
-/

namespace Persist

/-- Modelled from the spec: a `TypeDescriptor` identifies a reconstructable
type by a stable numeric code, and records the defined defaults of its
runtime-only fields (spec sections 3 and 4.1; the behaviour callbacks that are
irrelevant to the claims are omitted). -/
structure TypeDescriptor where
  code : Nat
  defaults : List Nat
deriving DecidableEq

/-- Modelled from the spec: the Type Registry table (spec section 4.1). -/
abbrev Registry := List TypeDescriptor

/-- Modelled from the spec: `lookup(type_code) -> Option<Descriptor>`; a total
function, absence is signalled by `none` (spec section 4.1). -/
def lookup : Registry → Nat → Option TypeDescriptor
  | [], _ => none
  | d :: rest, code => if d.code = code then some d else lookup rest code

/-- Modelled from the spec: the list of known deprecated/renamed aliases that
maps an unknown on-disk type code to a current one (spec section 4.3). -/
def aliasLookup : List (Nat × Nat) → Nat → Option Nat
  | [], _ => none
  | p :: rest, code => if p.1 = code then some p.2 else aliasLookup rest code

/-- Modelled from the spec: compatibility-aware type resolution used by the
reader: exact registry lookup first, then the alias table (spec section 4.3). -/
def resolveTypeCode (reg : Registry) (aliases : List (Nat × Nat)) (code : Nat) :
    Option TypeDescriptor :=
  match lookup reg code with
  | some d => some d
  | none =>
    match aliasLookup aliases code with
    | some c => lookup reg c
    | none => none

/-- Modelled from the spec: one node of the in-memory object graph: a type
code, payload field values, reference fields (holding target addresses, `none`
for null), runtime-only fields, and the transient "already written" marker
(spec sections 3 and 4.2). -/
structure Obj where
  type_code : Nat
  payload : List Nat
  refs : List (Option Nat)
  runtime : List Nat
  marked : Bool
deriving DecidableEq

/-- Modelled from the spec: the in-memory object graph, a table of live
objects keyed by their address (spec section 3). -/
structure Graph where
  objects : List (Nat × Obj)
deriving DecidableEq

/-- The addresses of the live objects of a graph. -/
def Graph.keys (g : Graph) : List Nat := g.objects.map Prod.fst

/-- Association lookup by address (first entry wins). -/
def lookupAddr : List (Nat × Obj) → Nat → Option Obj
  | [], _ => none
  | p :: rest, a => if p.1 = a then some p.2 else lookupAddr rest a

/-- Look an object up by its address. -/
def Graph.find? (g : Graph) (a : Nat) : Option Obj := lookupAddr g.objects a

/-- Modelled from the spec: a `SerializedBlock`, the tagged unit of written
data: type code, old memory address, byte length and payload; the reference
fields embedded in the payload are kept as a separate component of the shallow
embedding (spec sections 3 and 6). -/
structure SerializedBlock where
  type_code : Nat
  old_address : Nat
  payload_length : Nat
  payload : List Nat
  refs : List (Option Nat)
deriving DecidableEq

/-- The block the Writer emits for one object. -/
def mkBlock (a : Nat) (o : Obj) : SerializedBlock :=
  ⟨o.type_code, a, o.payload.length, o.payload, o.refs⟩

/-- Modelled from the spec: the byte stream: a header carrying the monotonic
format version, followed by the block sequence (spec section 6). -/
structure WireStream where
  version : Nat
  blocks : List SerializedBlock
deriving DecidableEq

/-- Modelled from the spec: the Writer's traversal loop (spec section 4.2): a
worklist of addresses still to serialize, a dedupe set keyed by old address
(`visited`), and the emitted block sequence.  A container is written before
its children (worklist prepend), an already-visited or dangling address is
skipped, and the final dedupe set is returned with the blocks. -/
def writeLoop (g : Graph) (visited : List Nat) (pending : List Nat) :
    List SerializedBlock × List Nat :=
  match pending with
  | [] => ([], visited)
  | a :: rest =>
    if hv : a ∈ visited then writeLoop g visited rest
    else
      match hf : g.find? a with
      | none => writeLoop g visited rest
      | some o =>
        let r := writeLoop g (a :: visited) (o.refs.filterMap id ++ rest)
        (mkBlock a o :: r.1, r.2)
termination_by
  ((g.keys.filter (fun k => decide (k ∉ visited))).length, pending.length)
decreasing_by
  · exact Prod.Lex.right _ (by simp only [List.length_cons]; omega)
  · exact Prod.Lex.right _ (by simp only [List.length_cons]; omega)
  · apply Prod.Lex.left
    have ha : a ∈ g.keys := by
      have hmem : ∀ l : List (Nat × Obj), lookupAddr l a = some o → a ∈ l.map Prod.fst := by
        intro l
        induction l with
        | nil => intro h; simp [lookupAddr] at h
        | cons p rest ih =>
          intro h
          by_cases hp : p.1 = a
          · simp [hp]
          · simp only [lookupAddr, if_neg hp] at h
            simp [ih h]
      exact hmem g.objects hf
    have hsub : ∀ p q : Nat → Bool, (∀ k, p k = true → q k = true) →
        ∀ l : List Nat, List.Sublist (l.filter p) (l.filter q) := by
      intro p q hpq l
      induction l with
      | nil => simp
      | cons k l ih =>
        cases hpk : p k with
        | true =>
          have hqk : q k = true := hpq k hpk
          simp only [List.filter_cons, hpk, hqk, if_true]
          exact ih.cons₂ k
        | false =>
          cases hqk : q k with
          | true =>
            simp [List.filter_cons, hpk, hqk]
            exact ih.cons k
          | false =>
            simpa [List.filter_cons, hpk, hqk] using ih
    have hpq : ∀ k : Nat, decide (k ∉ a :: visited) = true → decide (k ∉ visited) = true := by
      intro k hk
      simp only [decide_eq_true_eq] at hk ⊢
      exact fun h => hk (List.mem_cons_of_mem _ h)
    have hs := hsub (fun k => decide (k ∉ a :: visited)) (fun k => decide (k ∉ visited)) hpq g.keys
    have hmemP : a ∈ g.keys.filter (fun k => decide (k ∉ visited)) := by
      simp [List.mem_filter, ha, hv]
    have hmemQ : a ∉ g.keys.filter (fun k => decide (k ∉ a :: visited)) := by
      simp [List.mem_filter]
    exact Nat.lt_of_le_of_ne hs.length_le
      (fun he => hmemQ (hs.eq_of_length he ▸ hmemP))

/-- Modelled from the spec: `save(graph, roots) -> stream` (spec section 6):
walk the graph from the roots with an empty dedupe set and emit the header
with the current format version followed by the block sequence. -/
def save (curVersion : Nat) (g : Graph) (roots : List Nat) : WireStream :=
  ⟨curVersion, (writeLoop g [] roots).1⟩

/-- Set the transient "already written" marker on the objects whose address
lies in the given set. -/
def markMany (g : Graph) (as : List Nat) : Graph :=
  ⟨g.objects.map (fun p => if p.1 ∈ as then (p.1, { p.2 with marked := true }) else p)⟩

/-- Clear the transient "already written" marker on every object. -/
def clearMarks (g : Graph) : Graph :=
  ⟨g.objects.map (fun p => (p.1, { p.2 with marked := false }))⟩

/-- Modelled from the spec: a whole write pass including its side effect on
the source graph (spec section 4.2): the traversal is read-only except for the
transient "already written" marker, which is set on every visited object and
cleared again before the pass ends; the pass returns the stream and the source
graph as it is left behind. -/
def savePass (curVersion : Nat) (g : Graph) (roots : List Nat) : WireStream × Graph :=
  let r := writeLoop g [] roots
  (⟨curVersion, r.1⟩, clearMarks (markMany g r.2))

/-- Modelled from the spec: a per-object diagnostic collected during a load
(spec section 7); an unknown type names the offending code. -/
inductive Diagnostic
  | unknownType (code : Nat)
deriving DecidableEq

/-- Modelled from the spec: the only fatal error class of a load: stream-level
structural corruption (spec section 7). -/
inductive LoadError
  | structuralCorruption
deriving DecidableEq

/-- A block is well formed when its recorded length matches its payload; a
mismatch is structural corruption (spec section 4.3). -/
def blockWellFormed (b : SerializedBlock) : Bool :=
  b.payload_length == b.payload.length

/-- Modelled from the spec: the Reader struct stage (spec section 4.3): each
block's type is resolved through registry and alias table; an unresolvable
block is dropped with an `unknownType` diagnostic; a resolved block is turned
into a fresh allocation keyed by its old address, payload copied verbatim,
references still holding old addresses, and runtime-only fields reset to the
descriptor's defined defaults. -/
def readStruct (reg : Registry) (aliases : List (Nat × Nat)) :
    List SerializedBlock → List (Nat × Obj) × List Diagnostic
  | [] => ([], [])
  | b :: rest =>
    let r := readStruct reg aliases rest
    match resolveTypeCode reg aliases b.type_code with
    | none => (r.1, .unknownType b.type_code :: r.2)
    | some d => ((b.old_address, ⟨b.type_code, b.payload, b.refs, d.defaults, false⟩) :: r.1, r.2)

/-- The address map built by the struct stage: the old addresses that received
an allocation (old address is reused as the stream-local key of the new one). -/
def addressMap (objs : List (Nat × Obj)) : List Nat := objs.map Prod.fst

/-- Modelled from the spec: the Reference Resolver on one reference field
(spec section 4.4): an old address found in the address map is rewritten to
the new address, a missing target becomes null. -/
def resolveRef (amap : List Nat) : Option Nat → Option Nat
  | none => none
  | some x => if x ∈ amap then some x else none

/-- Resolve every reference field of one object. -/
def resolveObj (amap : List Nat) (o : Obj) : Obj :=
  { o with refs := o.refs.map (resolveRef amap) }

/-- Modelled from the spec: the Reference Resolver stage over the whole
allocation table (spec section 4.4); it only depends on the completed address
map, not on any resolution order. -/
def resolveAll (objs : List (Nat × Obj)) : List (Nat × Obj) :=
  objs.map (fun p => (p.1, resolveObj (addressMap objs) p.2))

/-- Modelled from the spec: one registered upgrade transform of the Versioning
Stage (spec section 4.5): a target file version, the target condition it
establishes, and the graph rewrite itself. -/
structure UpgradeTransform where
  target : Nat
  cond : Graph → Bool
  update : Graph → Graph

/-- Modelled from the spec: running one upgrade transform, guarded by
`if (file_version < X)` and by the transform's own check whether its target
condition already holds before mutating (spec section 4.5). -/
def applyUpgrade (fileVersion : Nat) (g : Graph) (t : UpgradeTransform) : Graph :=
  if fileVersion < t.target then (if t.cond g then g else t.update g) else g

/-- Modelled from the spec: the full ordered sequence of upgrade transforms
applied to a raw graph (spec section 4.5). -/
def runUpgrades (fileVersion : Nat) (ts : List UpgradeTransform) (g : Graph) : Graph :=
  ts.foldl (applyUpgrade fileVersion) g

/-- A sample upgrade transform: it ensures the graph has at least one object,
checking first whether one is already present. -/
def exampleUpgrade : UpgradeTransform :=
  ⟨1, fun g => !g.objects.isEmpty, fun g => ⟨(0, ⟨0, [], [], [], false⟩) :: g.objects⟩⟩

/-- Modelled from the spec: the result of a successful load: the reconstructed
graph and the collected per-object diagnostics (spec sections 6 and 7). -/
structure LoadResult where
  graph : Graph
  diagnostics : List Diagnostic
deriving DecidableEq

/-- Modelled from the spec: `load(stream)` (spec sections 4.3 to 4.5 and 7):
a malformed block aborts the whole load with `structuralCorruption`; otherwise
the struct stage allocates, the resolver patches every reference through the
address map, the versioning stage applies the registered upgrade transforms
keyed by the header version, and per-object problems are only diagnostics. -/
def load (reg : Registry) (aliases : List (Nat × Nat)) (ts : List UpgradeTransform)
    (s : WireStream) : Except LoadError LoadResult :=
  if s.blocks.all blockWellFormed then
    let r := readStruct reg aliases s.blocks
    .ok ⟨runUpgrades s.version ts ⟨resolveAll r.1⟩, r.2⟩
  else
    .error .structuralCorruption

/-- The expected shape of a reloaded object: payload and references as saved,
runtime-only fields reset to the defined defaults of the object's type. -/
def resetRuntime (reg : Registry) (aliases : List (Nat × Nat)) (o : Obj) : Obj :=
  match resolveTypeCode reg aliases o.type_code with
  | some d => { o with runtime := d.defaults }
  | none => o

/-- The allocation the struct stage produces for one resolvable block (with an
empty runtime vector as the degenerate value on an unresolvable one). -/
def readObjOf (reg : Registry) (aliases : List (Nat × Nat)) (b : SerializedBlock) : Obj :=
  match resolveTypeCode reg aliases b.type_code with
  | some d => ⟨b.type_code, b.payload, b.refs, d.defaults, false⟩
  | none => ⟨b.type_code, b.payload, b.refs, [], false⟩

/-- An address is reachable when it is a root or a reference target of a
reachable live object (the Writer serializes exactly this set). -/
inductive Reaches (g : Graph) (roots : List Nat) : Nat → Prop
  | root {a : Nat} : a ∈ roots → a ∈ g.keys → Reaches g roots a
  | step {a x : Nat} {o : Obj} : Reaches g roots a → g.find? a = some o →
      some x ∈ o.refs → x ∈ g.keys → Reaches g roots x

/-- Invariant of the Writer's worklist: every reference of every
already-visited object is itself visited, still pending, or dangling. -/
def WriterInv (g : Graph) (visited pending : List Nat) : Prop :=
  ∀ a ∈ visited, ∀ o : Obj, g.find? a = some o →
    ∀ x : Nat, some x ∈ o.refs → x ∈ visited ∨ x ∈ pending ∨ x ∉ g.keys

/-- Modelled from the spec: the states of one Area's load (spec section 4.5). -/
inductive AreaLoadState
  | rawAllocated
  | referencesResolved
  | versioned
  | postLinkedValid
  | postLinkedPruned
deriving DecidableEq

/-- Modelled from the spec: the transition relation of one Area's load:
`RAW_ALLOCATED -> REFERENCES_RESOLVED -> VERSIONED -> POST_LINKED(valid) |
POST_LINKED(pruned)` (spec section 4.5). -/
inductive AreaLoadStep : AreaLoadState → AreaLoadState → Prop
  | resolve : AreaLoadStep .rawAllocated .referencesResolved
  | version : AreaLoadStep .referencesResolved .versioned
  | linkValid : AreaLoadStep .versioned .postLinkedValid
  | linkPruned : AreaLoadStep .versioned .postLinkedPruned

/-- Modelled from the spec: the load pipeline's driver for one Area: the next
stage entered from a given stage; `pruned` records whether post-link
validation prunes the Area.  Returns `none` from the two terminal states. -/
def areaLoadNext (s : AreaLoadState) (pruned : Bool) : Option AreaLoadState :=
  match s with
  | .rawAllocated => some .referencesResolved
  | .referencesResolved => some .versioned
  | .versioned => some (if pruned then .postLinkedPruned else .postLinkedValid)
  | .postLinkedValid => none
  | .postLinkedPruned => none

end Persist

namespace Snap

/-- A 3d vector; float coordinates are embedded as exact rationals. -/
structure V3 where
  x : ℚ
  y : ℚ
  z : ℚ
deriving DecidableEq

/-- Componentwise vector sum (`add_v3_v3`). -/
def v3add (a b : V3) : V3 := ⟨a.x + b.x, a.y + b.y, a.z + b.z⟩

/-- The zero vector (`zero_v3`). -/
def v3zero : V3 := ⟨0, 0, 0⟩

/-- Componentwise minimum, as updated by `minmax_v3v3_v3`. -/
def v3min (a b : V3) : V3 := ⟨min a.x b.x, min a.y b.y, min a.z b.z⟩

/-- Componentwise maximum, as updated by `minmax_v3v3_v3`. -/
def v3max (a b : V3) : V3 := ⟨max a.x b.x, max a.y b.y, max a.z b.z⟩

/-- Midpoint of two vectors (`mid_v3_v3v3`). -/
def v3mid (a b : V3) : V3 := ⟨(a.x + b.x) / 2, (a.y + b.y) / 2, (a.z + b.z) / 2⟩

/-- Scalar multiple (`mul_v3_fl`). -/
def v3scale (s : ℚ) (a : V3) : V3 := ⟨s * a.x, s * a.y, s * a.z⟩

/-- Pivot value `V3D_AROUND_CENTER_BOUNDS` of the `DNA_view3d_types.h` enum. -/
def V3D_AROUND_CENTER_BOUNDS : Int := 0

/-- Pivot value `V3D_AROUND_ACTIVE` of the `DNA_view3d_types.h` enum. -/
def V3D_AROUND_ACTIVE : Int := 4

/-- Operator return value `OPERATOR_CANCELLED` (`WM_types.h`). -/
def OPERATOR_CANCELLED : Nat := 2

/-- Operator return value `OPERATOR_FINISHED` (`WM_types.h`). -/
def OPERATOR_FINISHED : Nat := 4

/-- Location protection flag `OB_LOCK_LOCX` (`DNA_object_types.h`). -/
def OB_LOCK_LOCX : Nat := 1

/-- Location protection flag `OB_LOCK_LOCY` (`DNA_object_types.h`). -/
def OB_LOCK_LOCY : Nat := 2

/-- Location protection flag `OB_LOCK_LOCZ` (`DNA_object_types.h`). -/
def OB_LOCK_LOCZ : Nat := 4

/-- Bone flag `BONE_SELECTED` (`DNA_armature_types.h`). -/
def BONE_SELECTED : Nat := 1

/-- Bone flag `BONE_TRANSFORM` (`DNA_armature_types.h`). -/
def BONE_TRANSFORM : Nat := 8

/-- Bone flag `BONE_CONNECTED` (`DNA_armature_types.h`). -/
def BONE_CONNECTED : Nat := 16

/-- The sentinel bound written by `INIT_MINMAX` (`1.0e30f` in `BLI_math`). -/
def initMinmaxBound : ℚ := 10 ^ 30

/-- The running accumulator of `snap_curs_to_sel_ex`: collected point count,
summed centroid, and the min/max bounds. -/
structure MinmaxAcc where
  count : Nat
  centroid : V3
  minv : V3
  maxv : V3
deriving DecidableEq

/-- The accumulator as initialized at the top of `snap_curs_to_sel_ex`:
`count = 0`, `zero_v3(centroid)` and `INIT_MINMAX(min, max)`. -/
def initAcc : MinmaxAcc :=
  ⟨0, v3zero, ⟨initMinmaxBound, initMinmaxBound, initMinmaxBound⟩,
    ⟨-initMinmaxBound, -initMinmaxBound, -initMinmaxBound⟩⟩

/-- One collected point's effect in `snap_curs_to_sel_ex`: the point is added
to the centroid, folded into the min/max bounds, and counted. -/
def accMinmax (s : MinmaxAcc) (p : V3) : MinmaxAcc :=
  ⟨s.count + 1, v3add s.centroid p, v3min s.minv p, v3max s.maxv p⟩

/-- `snap_curs_to_sel_ex`, embedded over the list of world-space points it
collects (edit-mode vertices, selected pose-bone heads, or selected object
centers; the collection itself queries external context).  Returns the C
function's boolean result together with the final value of `r_cursor`, whose
input value is passed in `cursor`. -/
def snap_curs_to_sel_ex (pivot_point : Int) (points : List V3) (cursor : V3) : Bool × V3 :=
  let st := points.foldl accMinmax initAcc
  if st.count = 0 then (false, cursor)
  else if pivot_point = V3D_AROUND_CENTER_BOUNDS then (true, v3mid st.minv st.maxv)
  else (true, v3scale (1 / (st.count : ℚ)) st.centroid)

/-- The true componentwise minimum of a nonempty point list. -/
def listMinV3 (p : V3) (ps : List V3) : V3 := ps.foldl v3min p

/-- The true componentwise maximum of a nonempty point list. -/
def listMaxV3 (p : V3) (ps : List V3) : V3 := ps.foldl v3max p

/-- The sum of a point list. -/
def listSumV3 (ps : List V3) : V3 := ps.foldl v3add v3zero

/-- A point whose coordinates lie within the `INIT_MINMAX` sentinel bounds. -/
def inBounds (p : V3) : Prop :=
  -initMinmaxBound ≤ p.x ∧ p.x ≤ initMinmaxBound ∧
  -initMinmaxBound ≤ p.y ∧ p.y ≤ initMinmaxBound ∧
  -initMinmaxBound ≤ p.z ∧ p.z ≤ initMinmaxBound

/-- The frame condition the protect flags enforce on one location update:
every locked component of the new location equals the old one. -/
def lockedPreserved (pf : Nat) (oldLoc newLoc : V3) : Prop :=
  (pf &&& OB_LOCK_LOCX ≠ 0 → newLoc.x = oldLoc.x) ∧
  (pf &&& OB_LOCK_LOCY ≠ 0 → newLoc.y = oldLoc.y) ∧
  (pf &&& OB_LOCK_LOCZ ≠ 0 → newLoc.z = oldLoc.z)

/-- The lock-guarded component assignment shared by the snap operators:
each location component is assigned its new value only when the matching
`OB_LOCK_LOC*` bit of `protectflag` is clear. -/
def applyLockedAssign (pf : Nat) (old new : V3) : V3 :=
  ⟨if pf &&& OB_LOCK_LOCX = 0 then new.x else old.x,
   if pf &&& OB_LOCK_LOCY = 0 then new.y else old.y,
   if pf &&& OB_LOCK_LOCZ = 0 then new.z else old.z⟩

/-- The lock-guarded component increment of the object branch of
`snap_selected_to_location` (`ob->loc[i] += cursor_parent[i]`). -/
def applyLockedAdd (pf : Nat) (old delta : V3) : V3 :=
  ⟨if pf &&& OB_LOCK_LOCX = 0 then old.x + delta.x else old.x,
   if pf &&& OB_LOCK_LOCY = 0 then old.y + delta.y else old.y,
   if pf &&& OB_LOCK_LOCZ = 0 then old.z + delta.z else old.z⟩

/-- A pose channel: its identifying name, bone flags, protection flags and
location. -/
structure PoseChan where
  name : Nat
  boneFlag : Nat
  hasParent : Bool
  protectflag : Nat
  loc : V3

/-- An object as the snap operators touch it: protection flags, location and
the `OB_DONE`-style bookkeeping relevant to the loops. -/
structure SObj where
  protectflag : Nat
  loc : V3
  hasParent : Bool

/-- One pose channel's update in the pose branch of `snap_sel_to_grid_exec`:
a selected, visible, unconnected bone has the grid-snapped location (computed
through external matrix math, passed as `gridTarget`) written into its
unlocked location components. -/
def snapGridPoseChan (visible : PoseChan → Bool) (gridTarget : PoseChan → V3)
    (pc : PoseChan) : PoseChan :=
  if pc.boneFlag &&& BONE_SELECTED ≠ 0 then
    if visible pc then
      if pc.boneFlag &&& BONE_CONNECTED = 0 then
        { pc with loc := applyLockedAssign pc.protectflag pc.loc (gridTarget pc) }
      else pc
    else pc
  else pc

/-- The pose branch of `snap_sel_to_grid_exec` over one object's channel
list. -/
def snap_sel_to_grid_pose (visible : PoseChan → Bool) (gridTarget : PoseChan → V3)
    (chans : List PoseChan) : List PoseChan :=
  chans.map (snapGridPoseChan visible gridTarget)

/-- One object's update in the object branch of `snap_sel_to_grid_exec`:
the snapped value `ob_eval->loc + vec` (computed through external evaluated
state, passed as `gridTarget`) is written into the unlocked location
components. -/
def snapGridObj (gridTarget : SObj → V3) (ob : SObj) : SObj :=
  { ob with loc := applyLockedAssign ob.protectflag ob.loc (gridTarget ob) }

/-- The object branch of `snap_sel_to_grid_exec` over the selected editable
objects. -/
def snap_sel_to_grid_objects (gridTarget : SObj → V3) (objs : List SObj) : List SObj :=
  objs.map (snapGridObj gridTarget)

/-- Pass one of the pose branch of `snap_selected_to_location`: tag the
selected, visible, unconnected bones with `BONE_TRANSFORM`, untag the rest. -/
def tagTransform (visible : PoseChan → Bool) (pc : PoseChan) : PoseChan :=
  if pc.boneFlag &&& BONE_SELECTED ≠ 0 ∧ visible pc ∧ pc.boneFlag &&& BONE_CONNECTED = 0 then
    { pc with boneFlag := pc.boneFlag ||| BONE_TRANSFORM }
  else
    { pc with boneFlag := pc.boneFlag - (pc.boneFlag &&& BONE_TRANSFORM) }

/-- Pass two of the pose branch of `snap_selected_to_location`: a
`BONE_TRANSFORM`-tagged channel with no transformed parent gets the computed
pose-space target (`cursorPose`, external matrix math); with tool settings the
write is lock-guarded with auto-keyframing, without them it is an
unconditional copy. -/
def snapLocPoseChan (use_toolsettings : Bool) (parentTransformed : PoseChan → Bool)
    (cursorPose : PoseChan → V3) (pc : PoseChan) : PoseChan :=
  if pc.boneFlag &&& BONE_TRANSFORM ≠ 0 ∧ ¬(pc.hasParent ∧ parentTransformed pc) then
    if use_toolsettings then
      { pc with loc := applyLockedAssign pc.protectflag pc.loc (cursorPose pc) }
    else
      { pc with loc := cursorPose pc }
  else pc

/-- Clearing pass of the pose branch of `snap_selected_to_location`:
`pchan->bone->flag &= ~BONE_TRANSFORM` on every channel. -/
def clearTransform (pc : PoseChan) : PoseChan :=
  { pc with boneFlag := pc.boneFlag - (pc.boneFlag &&& BONE_TRANSFORM) }

/-- The pose branch of `snap_selected_to_location` over one object's channel
list: tag, move, untag. -/
def snap_selected_to_location_pose (use_toolsettings : Bool) (visible : PoseChan → Bool)
    (parentTransformed : PoseChan → Bool) (cursorPose : PoseChan → V3)
    (chans : List PoseChan) : List PoseChan :=
  ((chans.map (tagTransform visible)).map
    (snapLocPoseChan use_toolsettings parentTransformed cursorPose)).map clearTransform

/-- One object's update in the object branch of `snap_selected_to_location`:
an object whose parent is already being transformed is skipped; otherwise the
parent-relative offset (`cursor_parent`, external matrix math) is added to the
location, lock-guarded when tool settings are honored. -/
def snapLocObj (use_toolsettings : Bool) (skipChild : SObj → Bool)
    (cursorParent : SObj → V3) (ob : SObj) : SObj :=
  if ob.hasParent ∧ skipChild ob then ob
  else if use_toolsettings then
    { ob with loc := applyLockedAdd ob.protectflag ob.loc (cursorParent ob) }
  else
    { ob with loc := v3add ob.loc (cursorParent ob) }

/-- The object branch of `snap_selected_to_location` over the selected
editable objects. -/
def snap_selected_to_location_objects (use_toolsettings : Bool) (skipChild : SObj → Bool)
    (cursorParent : SObj → V3) (objs : List SObj) : List SObj :=
  objs.map (snapLocObj use_toolsettings skipChild cursorParent)

/-- The scene state the snap-to-location operators can mutate: the selected
objects' and pose channels' data, with the mode flag selecting the branch
taken (the edit-mode branch moves only edit-mesh transverts, not object or
pose-channel locations, and is outside the modelled state). -/
structure SceneModel where
  objects : List SObj
  pchans : List PoseChan
  inPoseMode : Bool

/-- The active object as `snap_calc_active_center` consults it:
`ED_object_calc_active_center` is external and is modelled by the `calcCenter`
field, taking `select_only` and returning `none` on failure. -/
structure ActiveObjModel where
  calcCenter : Bool → Option V3

/-- The operator context: the active object (if any), the scene state, and
the external computations the snap loops delegate to. -/
structure CtxModel where
  activeObject : Option ActiveObjModel
  scene : SceneModel
  visible : PoseChan → Bool
  parentTransformed : PoseChan → Bool
  cursorPoseFor : V3 → PoseChan → V3
  cursorParentFor : V3 → SObj → V3
  skipChild : SObj → Bool

/-- `snap_calc_active_center`: fails when there is no active object, otherwise
defers to `ED_object_calc_active_center`. -/
def snap_calc_active_center (c : CtxModel) (select_only : Bool) : Option V3 :=
  match c.activeObject with
  | none => none
  | some ob => ob.calcCenter select_only

/-- `snap_selected_to_location` over the modelled scene state: dispatches to
the pose or object branch and always reports success, as the C function
returns `true` on every path.  (`use_offset` shifts the snap target through
external pivot computation before the branches run and is absorbed into the
target-dependent computation fields of the context.) -/
def snap_selected_to_location (c : CtxModel) (target : V3) (use_toolsettings : Bool) :
    Bool × SceneModel :=
  if c.scene.inPoseMode then
    (true, { c.scene with pchans := (snap_selected_to_location_pose use_toolsettings
      c.visible c.parentTransformed (c.cursorPoseFor target) c.scene.pchans) })
  else
    (true, { c.scene with objects := (snap_selected_to_location_objects use_toolsettings
      c.skipChild (c.cursorParentFor target) c.scene.objects) })

/-- The `exec` callback of `VIEW3D_OT_snap_selected_to_active`: when no active
center can be computed it reports "No active element found!" and cancels;
otherwise it snaps the selection to the active center with tool settings
honored.  Returns the operator status, the reports, and the scene state left
behind. -/
def snap_selected_to_active_exec (c : CtxModel) : Nat × List String × SceneModel :=
  match snap_calc_active_center c false with
  | none => (OPERATOR_CANCELLED, ["No active element found!"], c.scene)
  | some target =>
    let r := snap_selected_to_location c target true
    if r.1 then (OPERATOR_FINISHED, [], r.2) else (OPERATOR_CANCELLED, [], r.2)

end Snap

/-! ## Theorems -/

namespace Persist

theorem lookup_eq_none_iff (reg : Registry) (code : Nat) :
    lookup reg code = none ↔ code ∉ reg.map TypeDescriptor.code := by
  induction reg with
  | nil => simp [lookup]
  | cons d rest ih =>
    by_cases h : d.code = code
    · simp [lookup, h]
    · have h' : code ≠ d.code := fun hc => h hc.symm
      simp [lookup, h, h', ih]

theorem lookupAddr_eq_none_iff (l : List (Nat × Obj)) (a : Nat) :
    lookupAddr l a = none ↔ a ∉ l.map Prod.fst := by
  induction l with
  | nil => simp [lookupAddr]
  | cons p rest ih =>
    by_cases h : p.1 = a
    · simp [lookupAddr, h]
    · have h' : a ≠ p.1 := fun hc => h hc.symm
      simp [lookupAddr, h, h', ih]

theorem find_none_iff (g : Graph) (a : Nat) : g.find? a = none ↔ a ∉ g.keys :=
  lookupAddr_eq_none_iff g.objects a

theorem lookupAddr_some_mem {l : List (Nat × Obj)} {a : Nat} {o : Obj}
    (h : lookupAddr l a = some o) : (a, o) ∈ l := by
  induction l with
  | nil => simp [lookupAddr] at h
  | cons p rest ih =>
    by_cases hp : p.1 = a
    · simp only [lookupAddr, if_pos hp] at h
      cases h
      obtain ⟨k, w⟩ := p
      cases hp
      exact List.mem_cons_self _ _
    · simp only [lookupAddr, if_neg hp] at h
      exact List.mem_cons_of_mem _ (ih h)

theorem find_some_mem {g : Graph} {a : Nat} {o : Obj} (h : g.find? a = some o) :
    (a, o) ∈ g.objects :=
  lookupAddr_some_mem h

theorem find_some_mem_keys {g : Graph} {a : Nat} {o : Obj} (h : g.find? a = some o) :
    a ∈ g.keys := by
  have := find_some_mem h
  exact List.mem_map.mpr ⟨(a, o), this, rfl⟩

theorem mem_keys_find {g : Graph} {a : Nat} (h : a ∈ g.keys) : ∃ o, g.find? a = some o := by
  cases hf : g.find? a with
  | none => exact absurd h ((find_none_iff g a).mp hf)
  | some o => exact ⟨o, rfl⟩

theorem writeLoop_nil (g : Graph) (v : List Nat) : writeLoop g v [] = ([], v) := by
  rw [writeLoop]

theorem writeLoop_visited_mem (g : Graph) (v : List Nat) (a : Nat) (rest : List Nat)
    (h : a ∈ v) : writeLoop g v (a :: rest) = writeLoop g v rest := by
  rw [writeLoop]
  simp [h]

theorem writeLoop_find_none (g : Graph) (v : List Nat) (a : Nat) (rest : List Nat)
    (h1 : a ∉ v) (h2 : g.find? a = none) :
    writeLoop g v (a :: rest) = writeLoop g v rest := by
  rw [writeLoop]
  simp only [dif_neg h1]
  split
  · rfl
  · rename_i o heq
    rw [h2] at heq
    cases heq

theorem writeLoop_find_some (g : Graph) (v : List Nat) (a : Nat) (rest : List Nat)
    (o : Obj) (h1 : a ∉ v) (h2 : g.find? a = some o) :
    writeLoop g v (a :: rest) =
      (mkBlock a o :: (writeLoop g (a :: v) (o.refs.filterMap id ++ rest)).1,
        (writeLoop g (a :: v) (o.refs.filterMap id ++ rest)).2) := by
  rw [writeLoop]
  simp only [dif_neg h1]
  split
  · rename_i heq
    rw [h2] at heq
    cases heq
  · rename_i o' heq
    rw [h2] at heq
    cases heq
    rfl

theorem writeLoop_visited_eq (g : Graph) (v p : List Nat) :
    (writeLoop g v p).2 =
      ((writeLoop g v p).1.map SerializedBlock.old_address).reverse ++ v := by
  induction v, p using writeLoop.induct g with
  | case1 v => simp [writeLoop_nil]
  | case2 v a rest h ih =>
    rw [writeLoop_visited_mem g v a rest h]
    exact ih
  | case3 v a rest h1 h2 ih =>
    rw [writeLoop_find_none g v a rest h1 h2]
    exact ih
  | case4 v a rest h1 o h2 ih =>
    rw [writeLoop_find_some g v a rest o h1 h2]
    simp only [List.map_cons, List.reverse_cons, List.append_assoc, List.singleton_append]
    exact ih

theorem writeLoop_blocks_sound (g : Graph) (v p : List Nat) :
    ∀ b ∈ (writeLoop g v p).1, ∃ o, g.find? b.old_address = some o ∧
      b = mkBlock b.old_address o ∧ b.old_address ∉ v := by
  induction v, p using writeLoop.induct g with
  | case1 v => simp [writeLoop_nil]
  | case2 v a rest h ih =>
    rw [writeLoop_visited_mem g v a rest h]
    exact ih
  | case3 v a rest h1 h2 ih =>
    rw [writeLoop_find_none g v a rest h1 h2]
    exact ih
  | case4 v a rest h1 o h2 ih =>
    rw [writeLoop_find_some g v a rest o h1 h2]
    intro b hb
    rcases List.mem_cons.mp hb with hb | hb
    · subst hb
      exact ⟨o, by simpa [mkBlock] using h2, by simp [mkBlock], by simpa [mkBlock] using h1⟩
    · obtain ⟨o', ho', hbo, hnv⟩ := ih b hb
      exact ⟨o', ho', hbo, fun hv' => hnv (List.mem_cons_of_mem _ hv')⟩

theorem writeLoop_visited_nodup (g : Graph) (v p : List Nat) :
    v.Nodup → (writeLoop g v p).2.Nodup := by
  induction v, p using writeLoop.induct g with
  | case1 v =>
    intro h
    simpa [writeLoop_nil] using h
  | case2 v a rest h ih =>
    intro hn
    rw [writeLoop_visited_mem g v a rest h]
    exact ih hn
  | case3 v a rest h1 h2 ih =>
    intro hn
    rw [writeLoop_find_none g v a rest h1 h2]
    exact ih hn
  | case4 v a rest h1 o h2 ih =>
    intro hn
    rw [writeLoop_find_some g v a rest o h1 h2]
    exact ih (List.nodup_cons.mpr ⟨h1, hn⟩)

theorem writeLoop_complete (g : Graph) (v p : List Nat) :
    WriterInv g v p →
      (∀ a ∈ p, a ∈ g.keys → a ∈ (writeLoop g v p).2) ∧
      (∀ a ∈ v, a ∈ (writeLoop g v p).2) ∧
      WriterInv g (writeLoop g v p).2 [] := by
  induction v, p using writeLoop.induct g with
  | case1 v =>
    intro hinv
    rw [writeLoop_nil]
    exact ⟨by simp, fun a ha => ha, hinv⟩
  | case2 v a rest hmem ih =>
    intro hinv
    rw [writeLoop_visited_mem g v a rest hmem]
    have hinv' : WriterInv g v rest := by
      intro a' ha' o ho x hx
      rcases hinv a' ha' o ho x hx with h | h | h
      · exact Or.inl h
      · rcases List.mem_cons.mp h with rfl | h
        · exact Or.inl hmem
        · exact Or.inr (Or.inl h)
      · exact Or.inr (Or.inr h)
    obtain ⟨hp, hv, hfin⟩ := ih hinv'
    refine ⟨?_, hv, hfin⟩
    intro a' ha' hk
    rcases List.mem_cons.mp ha' with rfl | ha'
    · exact hv _ hmem
    · exact hp _ ha' hk
  | case3 v a rest h1 h2 ih =>
    intro hinv
    rw [writeLoop_find_none g v a rest h1 h2]
    have hinv' : WriterInv g v rest := by
      intro a' ha' o ho x hx
      rcases hinv a' ha' o ho x hx with h | h | h
      · exact Or.inl h
      · rcases List.mem_cons.mp h with rfl | h
        · exact Or.inr (Or.inr ((find_none_iff g x).mp h2))
        · exact Or.inr (Or.inl h)
      · exact Or.inr (Or.inr h)
    obtain ⟨hp, hv, hfin⟩ := ih hinv'
    refine ⟨?_, hv, hfin⟩
    intro a' ha' hk
    rcases List.mem_cons.mp ha' with rfl | ha'
    · exact absurd hk ((find_none_iff g a').mp h2)
    · exact hp _ ha' hk
  | case4 v a rest h1 o h2 ih =>
    intro hinv
    rw [writeLoop_find_some g v a rest o h1 h2]
    have hinv' : WriterInv g (a :: v) (o.refs.filterMap id ++ rest) := by
      intro a' ha' o' ho' x hx
      rcases List.mem_cons.mp ha' with rfl | ha'
      · rw [h2] at ho'
        cases ho'
        exact Or.inr (Or.inl (List.mem_append_left _ (List.mem_filterMap.mpr ⟨some x, hx, rfl⟩)))
      · rcases hinv a' ha' o' ho' x hx with h | h | h
        · exact Or.inl (List.mem_cons_of_mem _ h)
        · rcases List.mem_cons.mp h with rfl | h
          · exact Or.inl (List.mem_cons_self _ _)
          · exact Or.inr (Or.inl (List.mem_append_right _ h))
        · exact Or.inr (Or.inr h)
    obtain ⟨hp, hv, hfin⟩ := ih hinv'
    refine ⟨?_, ?_, hfin⟩
    · intro a' ha' hk
      rcases List.mem_cons.mp ha' with rfl | ha'
      · exact hv _ (List.mem_cons_self _ _)
      · exact hp _ (List.mem_append_right _ ha') hk
    · intro a' ha'
      exact hv _ (List.mem_cons_of_mem _ ha')

theorem reaches_visited {g : Graph} {roots : List Nat} {x : Nat}
    (h : Reaches g roots x) : x ∈ (writeLoop g [] roots).2 := by
  have hinv : WriterInv g [] roots := by
    intro a ha
    exact absurd ha (List.not_mem_nil a)
  induction h with
  | root hr hk => exact (writeLoop_complete g [] roots hinv).1 _ hr hk
  | step hr hfind href hk ih =>
    rcases (writeLoop_complete g [] roots hinv).2.2 _ ih _ hfind _ href with h | h | h
    · exact h
    · exact absurd h (List.not_mem_nil _)
    · exact absurd hk h

theorem save_addresses_mem_keys (curVersion : Nat) (g : Graph) (roots : List Nat) :
    ∀ x ∈ ((save curVersion g roots).blocks.map SerializedBlock.old_address), x ∈ g.keys := by
  intro x hx
  obtain ⟨b, hb, hbx⟩ := List.mem_map.mp hx
  obtain ⟨o, ho, _, _⟩ := writeLoop_blocks_sound g [] roots b hb
  exact hbx ▸ find_some_mem_keys ho

theorem keys_mem_save_addresses (curVersion : Nat) (g : Graph) (roots : List Nat)
    (hreach : ∀ a ∈ g.keys, Reaches g roots a) :
    ∀ x ∈ g.keys, x ∈ ((save curVersion g roots).blocks.map SerializedBlock.old_address) := by
  intro x hx
  have hv := reaches_visited (hreach x hx)
  rw [writeLoop_visited_eq g [] roots] at hv
  simpa [save] using hv

theorem save_addresses_nodup (curVersion : Nat) (g : Graph) (roots : List Nat) :
    ((save curVersion g roots).blocks.map SerializedBlock.old_address).Nodup := by
  have h1 := writeLoop_visited_nodup g [] roots List.nodup_nil
  rw [writeLoop_visited_eq g [] roots] at h1
  simp only [List.append_nil] at h1
  have h2 := List.nodup_reverse.mp h1
  simpa [save] using h2

theorem runUpgrades_cons (v : Nat) (t : UpgradeTransform) (ts : List UpgradeTransform)
    (g : Graph) : runUpgrades v (t :: ts) g = runUpgrades v ts (applyUpgrade v g t) := rfl

theorem runUpgrades_current (v : Nat) (ts : List UpgradeTransform) :
    (∀ t ∈ ts, t.target ≤ v) → ∀ g, runUpgrades v ts g = g := by
  induction ts with
  | nil => intro _ g; rfl
  | cons t ts ih =>
    intro h g
    have ht := h t (List.mem_cons_self t ts)
    have happ : applyUpgrade v g t = g := by
      simp [applyUpgrade, Nat.not_lt.mpr ht]
    rw [runUpgrades_cons, happ]
    exact ih (fun t' ht' => h t' (List.mem_cons_of_mem _ ht')) g

theorem runUpgrades_preserves (v : Nat) (P : Graph → Bool) (ts : List UpgradeTransform) :
    (∀ t ∈ ts, ∀ g, P g = true → P (t.update g) = true) →
    ∀ g, P g = true → P (runUpgrades v ts g) = true := by
  induction ts with
  | nil => intro _ g hg; exact hg
  | cons t ts ih =>
    intro h g hg
    rw [runUpgrades_cons]
    apply ih (fun t' ht' => h t' (List.mem_cons_of_mem _ ht'))
    unfold applyUpgrade
    split
    · split
      · exact hg
      · exact h t (List.mem_cons_self _ _) g hg
    · exact hg

theorem runUpgrades_establishes (v : Nat) (ts : List UpgradeTransform) :
    (∀ t ∈ ts, ∀ g, t.cond (t.update g) = true) →
    (∀ t ∈ ts, ∀ t' ∈ ts, ∀ g, t'.cond g = true → t'.cond (t.update g) = true) →
    ∀ g t, t ∈ ts → v < t.target → t.cond (runUpgrades v ts g) = true := by
  induction ts with
  | nil => intro _ _ g t ht; exact absurd ht (List.not_mem_nil t)
  | cons t0 ts ih =>
    intro hestab hpres g t ht hlt
    rw [runUpgrades_cons]
    rcases List.mem_cons.mp ht with rfl | ht
    · have hc : t.cond (applyUpgrade v g t) = true := by
        unfold applyUpgrade
        rw [if_pos hlt]
        split
        · rename_i hcond
          exact hcond
        · exact hestab t (List.mem_cons_self _ _) g
      exact runUpgrades_preserves v t.cond ts
        (fun t' ht' g' => hpres t' (List.mem_cons_of_mem _ ht') t (List.mem_cons_self _ _) g')
        _ hc
    · exact ih (fun u hu g' => hestab u (List.mem_cons_of_mem _ hu) g')
        (fun u hu u' hu' g' => hpres u (List.mem_cons_of_mem _ hu) u'
          (List.mem_cons_of_mem _ hu') g')
        (applyUpgrade v g t0) t ht hlt

theorem runUpgrades_stable (v : Nat) (ts : List UpgradeTransform) :
    ∀ g, (∀ t ∈ ts, v < t.target → t.cond g = true) → runUpgrades v ts g = g := by
  induction ts with
  | nil => intro g _; rfl
  | cons t ts ih =>
    intro g h
    have happ : applyUpgrade v g t = g := by
      unfold applyUpgrade
      split
      · rename_i hlt
        simp [h t (List.mem_cons_self _ _) hlt]
      · rfl
    rw [runUpgrades_cons, happ]
    exact ih g (fun t' ht' => h t' (List.mem_cons_of_mem _ ht'))

theorem map_id_of_eq {α : Type} (f : α → α) :
    ∀ l : List α, (∀ x ∈ l, f x = x) → l.map f = l := by
  intro l
  induction l with
  | nil => intro _; rfl
  | cons x l ih =>
    intro h
    simp only [List.map_cons]
    rw [h x (List.mem_cons_self _ _), ih (fun y hy => h y (List.mem_cons_of_mem _ hy))]

theorem readStruct_all_known (reg : Registry) (al : List (Nat × Nat)) :
    ∀ blocks : List SerializedBlock,
      (∀ b ∈ blocks, (resolveTypeCode reg al b.type_code).isSome = true) →
      readStruct reg al blocks =
        (blocks.map (fun b => (b.old_address, readObjOf reg al b)), []) := by
  intro blocks
  induction blocks with
  | nil => intro _; rfl
  | cons b rest ih =>
    intro h
    have hb := h b (List.mem_cons_self _ _)
    cases hres : resolveTypeCode reg al b.type_code with
    | none =>
      rw [hres] at hb
      simp at hb
    | some d =>
      simp only [readStruct, hres]
      rw [ih (fun b' hb' => h b' (List.mem_cons_of_mem _ hb'))]
      simp [readObjOf, hres]

theorem readStruct_unknown_diag (reg : Registry) (al : List (Nat × Nat)) :
    ∀ (blocks : List SerializedBlock) (b : SerializedBlock), b ∈ blocks →
      resolveTypeCode reg al b.type_code = none →
      Diagnostic.unknownType b.type_code ∈ (readStruct reg al blocks).2 := by
  intro blocks
  induction blocks with
  | nil =>
    intro b hb
    exact absurd hb (List.not_mem_nil b)
  | cons b0 rest ih =>
    intro b hb hres
    rcases List.mem_cons.mp hb with rfl | hb
    · simp only [readStruct, hres]
      exact List.mem_cons_self _ _
    · cases hres0 : resolveTypeCode reg al b0.type_code with
      | none =>
        simp only [readStruct, hres0]
        exact List.mem_cons_of_mem _ (ih b hb hres)
      | some d =>
        simp only [readStruct, hres0]
        exact ih b hb hres

theorem readStruct_key_source (reg : Registry) (al : List (Nat × Nat)) :
    ∀ (blocks : List SerializedBlock) (a : Nat) (o : Obj),
      (a, o) ∈ (readStruct reg al blocks).1 →
      ∃ b ∈ blocks, b.old_address = a ∧ (resolveTypeCode reg al b.type_code).isSome = true := by
  intro blocks
  induction blocks with
  | nil =>
    intro a o h
    simp [readStruct] at h
  | cons b0 rest ih =>
    intro a o h
    cases hres0 : resolveTypeCode reg al b0.type_code with
    | none =>
      simp only [readStruct, hres0] at h
      obtain ⟨b, hb, h1, h2⟩ := ih a o h
      exact ⟨b, List.mem_cons_of_mem _ hb, h1, h2⟩
    | some d =>
      simp only [readStruct, hres0] at h
      rcases List.mem_cons.mp h with heq | h
      · have h1 : a = b0.old_address := congrArg Prod.fst heq
        exact ⟨b0, List.mem_cons_self _ _, h1.symm, by simp [hres0]⟩
      · obtain ⟨b, hb, h1, h2⟩ := ih a o h
        exact ⟨b, List.mem_cons_of_mem _ hb, h1, h2⟩

theorem lookupAddr_map_blocks_none (f : SerializedBlock → Obj) :
    ∀ (blocks : List SerializedBlock) (a : Nat), (∀ b ∈ blocks, b.old_address ≠ a) →
      lookupAddr (blocks.map (fun b => (b.old_address, f b))) a = none := by
  intro blocks
  induction blocks with
  | nil => intro a _; rfl
  | cons b rest ih =>
    intro a h
    have hb := h b (List.mem_cons_self _ _)
    simp only [List.map_cons, lookupAddr, if_neg hb]
    exact ih a (fun b' hb' => h b' (List.mem_cons_of_mem _ hb'))

theorem lookupAddr_map_blocks_some (f : SerializedBlock → Obj) :
    ∀ (blocks : List SerializedBlock) (b : SerializedBlock) (a : Nat),
      (blocks.map SerializedBlock.old_address).Nodup → b ∈ blocks → b.old_address = a →
      lookupAddr (blocks.map (fun b => (b.old_address, f b))) a = some (f b) := by
  intro blocks
  induction blocks with
  | nil =>
    intro b a _ hb
    exact absurd hb (List.not_mem_nil b)
  | cons b0 rest ih =>
    intro b a hnodup hb heq
    rcases List.mem_cons.mp hb with rfl | hb
    · simp only [List.map_cons, lookupAddr, if_pos heq]
    · have hb0 : b0.old_address ≠ a := by
        intro hc
        have hmm : b.old_address ∈ rest.map SerializedBlock.old_address :=
          List.mem_map.mpr ⟨b, hb, rfl⟩
        have hn := (List.nodup_cons.mp hnodup).1
        rw [hc] at hn
        rw [heq] at hmm
        exact hn hmm
      simp only [List.map_cons, lookupAddr, if_neg hb0]
      exact ih b a (List.nodup_cons.mp hnodup).2 hb heq

theorem resolveAll_keys (objs : List (Nat × Obj)) :
    (resolveAll objs).map Prod.fst = objs.map Prod.fst := by
  unfold resolveAll
  rw [List.map_map]
  rfl

theorem resolveAll_map (f : SerializedBlock → Obj) (blocks : List SerializedBlock) :
    resolveAll (blocks.map (fun b => (b.old_address, f b))) =
      blocks.map (fun b => (b.old_address,
        resolveObj (blocks.map SerializedBlock.old_address) (f b))) := by
  unfold resolveAll addressMap
  rw [List.map_map, List.map_map]
  rfl

theorem resolveTypeCode_of_lookup {reg : Registry} (al : List (Nat × Nat)) {code : Nat}
    {d : TypeDescriptor} (h : lookup reg code = some d) :
    resolveTypeCode reg al code = some d := by
  unfold resolveTypeCode
  rw [h]

theorem clear_marks_of_unmarked (objs : List (Nat × Obj)) (as : List Nat) :
    (∀ p ∈ objs, p.2.marked = false) →
    ((objs.map (fun p => if p.1 ∈ as then (p.1, { p.2 with marked := true }) else p)).map
      (fun p => (p.1, { p.2 with marked := false }))) = objs := by
  induction objs with
  | nil => intro _; rfl
  | cons p rest ih =>
    intro h
    simp only [List.map_cons]
    congr 1
    · obtain ⟨k, o⟩ := p
      have hm : o.marked = false := h (k, o) (List.mem_cons_self _ _)
      by_cases hk : k ∈ as
      · simp only [if_pos hk]
        cases o
        simp_all
      · simp only [if_neg hk]
        cases o
        simp_all
    · exact ih (fun q hq => h q (List.mem_cons_of_mem _ hq))

end Persist

/-- Claim C3: applying the full ordered sequence of registered upgrade
transforms twice to a raw graph yields the same result as applying it once:
each transform checks whether its target condition already holds before
mutating (and, being a schema upgrade, establishes its condition and does not
undo the conditions already established), so reapplication is a no-op. -/
theorem claim_C3_versioning_idempotent (v : Nat) (ts : List Persist.UpgradeTransform)
    (g : Persist.Graph)
    (hestab : ∀ t ∈ ts, ∀ g, t.cond (t.update g) = true)
    (hpres : ∀ t ∈ ts, ∀ t' ∈ ts, ∀ g, t'.cond g = true → t'.cond (t.update g) = true) :
    Persist.runUpgrades v ts (Persist.runUpgrades v ts g) = Persist.runUpgrades v ts g :=
  Persist.runUpgrades_stable v ts _
    (fun t ht hlt => Persist.runUpgrades_establishes v ts hestab hpres g t ht hlt)

/-- Witness for claim C3: the sample upgrade applied to the empty graph from
file version 0 is idempotent. -/
theorem claim_C3_witness :
    Persist.runUpgrades 0 [Persist.exampleUpgrade]
        (Persist.runUpgrades 0 [Persist.exampleUpgrade] ⟨[]⟩) =
      Persist.runUpgrades 0 [Persist.exampleUpgrade] ⟨[]⟩ :=
  claim_C3_versioning_idempotent 0 [Persist.exampleUpgrade] ⟨[]⟩
    (by
      intro t ht g
      simp only [List.mem_singleton] at ht
      subst ht
      simp [Persist.exampleUpgrade])
    (by
      intro t ht t' ht' g hc
      simp only [List.mem_singleton] at ht ht'
      subst ht
      subst ht'
      simp [Persist.exampleUpgrade])

/-- Claim C5: in every write pass of the Writer, each distinct live object
address appears in the output block sequence at most once, also when an
object is shared or aliased by several parents: the dedupe set keyed by old
address makes the emitted address list duplicate-free. -/
theorem claim_C5_writer_dedupe (curVersion : Nat) (g : Persist.Graph) (roots : List Nat) :
    ((Persist.save curVersion g roots).blocks.map
      Persist.SerializedBlock.old_address).Nodup :=
  Persist.save_addresses_nodup curVersion g roots

/-- Claim C6: a write pass leaves the source graph unchanged: the traversal
is read-only except for the transient "already written" marker, which is
cleared before the pass ends, so a pass over an unmarked graph returns it
exactly as it was. -/
theorem claim_C6_save_frame (curVersion : Nat) (g : Persist.Graph) (roots : List Nat)
    (h : ∀ p ∈ g.objects, p.2.marked = false) :
    Persist.savePass curVersion g roots = (Persist.save curVersion g roots, g) := by
  have h2 : Persist.clearMarks (Persist.markMany g (Persist.writeLoop g [] roots).2) = g := by
    unfold Persist.clearMarks Persist.markMany
    exact congrArg Persist.Graph.mk (Persist.clear_marks_of_unmarked g.objects _ h)
  simp [Persist.savePass, Persist.save, h2]

/-- Witness for claim C6: a pass over a concrete one-object unmarked graph
returns the graph untouched. -/
theorem claim_C6_witness :
    Persist.savePass 7 ⟨[(0, ⟨1, [2], [], [3], false⟩)]⟩ [0] =
      (Persist.save 7 ⟨[(0, ⟨1, [2], [], [3], false⟩)]⟩ [0],
        ⟨[(0, ⟨1, [2], [], [3], false⟩)]⟩) :=
  claim_C6_save_frame 7 ⟨[(0, ⟨1, [2], [], [3], false⟩)]⟩ [0] (by decide)

namespace Persist

/-- Claim C2: a well-formed stream holding a block whose type code resolves
through neither registry nor alias table still loads successfully: the load
returns a result (unknown type is never fatal; only structural corruption
aborts), the graph has no object at that block's address, and the diagnostics
name the unknown type code. -/
theorem claim_C2_unknown_type_tolerance (reg : Registry) (al : List (Nat × Nat))
    (ts : List UpgradeTransform) (s : WireStream) (b : SerializedBlock)
    (hwf : ∀ blk ∈ s.blocks, blockWellFormed blk = true)
    (hnodup : (s.blocks.map SerializedBlock.old_address).Nodup)
    (hb : b ∈ s.blocks)
    (hunknown : resolveTypeCode reg al b.type_code = none)
    (hts : ∀ t ∈ ts, t.target ≤ s.version) :
    ∃ r : LoadResult, load reg al ts s = .ok r ∧
      r.graph.find? b.old_address = none ∧
      Diagnostic.unknownType b.type_code ∈ r.diagnostics := by
  have hall : s.blocks.all blockWellFormed = true := List.all_eq_true.mpr hwf
  have hload : load reg al ts s = .ok
      ⟨⟨resolveAll (readStruct reg al s.blocks).1⟩, (readStruct reg al s.blocks).2⟩ := by
    simp only [load, hall, if_true]
    rw [runUpgrades_current s.version ts hts]
  refine ⟨_, hload, ?_, ?_⟩
  · show lookupAddr (resolveAll (readStruct reg al s.blocks).1) b.old_address = none
    rw [lookupAddr_eq_none_iff]
    intro hmem
    rw [resolveAll_keys] at hmem
    obtain ⟨⟨a0, o0⟩, hp, hfst⟩ := List.mem_map.mp hmem
    obtain ⟨b', hb', hb'a, hb'res⟩ := readStruct_key_source reg al s.blocks a0 o0 hp
    have hsame : b'.old_address = b.old_address := by
      rw [hb'a]
      exact hfst
    have hbb : b' = b := List.inj_on_of_nodup_map hnodup hb' hb hsame
    rw [hbb, hunknown] at hb'res
    simp at hb'res
  · exact readStruct_unknown_diag reg al s.blocks b hb hunknown

/-- Claim C1: for every object graph whose objects all carry registered types,
whose references stay inside the graph and whose objects are all reachable
from the roots, loading the saved stream succeeds with no diagnostics and
returns an isomorphic graph: every address holds an object with the same type
code, the same payload, the same reference topology, and its runtime-only
fields reset to the registered defaults. -/
theorem claim_C1_round_trip (reg : Registry) (al : List (Nat × Nat))
    (ts : List UpgradeTransform) (curV : Nat) (g : Graph) (roots : List Nat)
    (hmarks : ∀ p ∈ g.objects, p.2.marked = false)
    (hclosed : ∀ p ∈ g.objects, ∀ r ∈ p.2.refs, ∀ x : Nat, r = some x → x ∈ g.keys)
    (hreach : ∀ a ∈ g.keys, Reaches g roots a)
    (hknown : ∀ p ∈ g.objects, (lookup reg p.2.type_code).isSome = true)
    (hver : ∀ t ∈ ts, t.target ≤ curV) :
    ∃ r : LoadResult, load reg al ts (save curV g roots) = .ok r ∧
      r.diagnostics = [] ∧
      ∀ a : Nat, r.graph.find? a = (g.find? a).map (resetRuntime reg al) := by
  have hsound := writeLoop_blocks_sound g [] roots
  have hallP : ((writeLoop g [] roots).1.all blockWellFormed) = true := by
    refine List.all_eq_true.mpr ?_
    intro blk hblk
    obtain ⟨o, ho, hbo, _⟩ := hsound blk hblk
    rw [hbo]
    simp [blockWellFormed, mkBlock]
  have hknownB : ∀ blk ∈ (writeLoop g [] roots).1,
      (resolveTypeCode reg al blk.type_code).isSome = true := by
    intro blk hblk
    obtain ⟨o, ho, hbo, _⟩ := hsound blk hblk
    have hko := hknown _ (find_some_mem ho)
    cases hl : lookup reg o.type_code with
    | none =>
      rw [hl] at hko
      simp at hko
    | some d =>
      rw [hbo]
      simp only [mkBlock]
      rw [resolveTypeCode_of_lookup al hl]
      rfl
  have hread := readStruct_all_known reg al (writeLoop g [] roots).1 hknownB
  have hload : load reg al ts (save curV g roots) = .ok
      ⟨⟨resolveAll ((writeLoop g [] roots).1.map
        (fun b => (b.old_address, readObjOf reg al b)))⟩, []⟩ := by
    show load reg al ts ⟨curV, (writeLoop g [] roots).1⟩ = _
    simp only [load, hallP, if_true]
    rw [hread]
    rw [runUpgrades_current curV ts hver]
  refine ⟨_, hload, rfl, ?_⟩
  intro a
  show lookupAddr (resolveAll ((writeLoop g [] roots).1.map
    (fun b => (b.old_address, readObjOf reg al b)))) a = (g.find? a).map (resetRuntime reg al)
  rw [resolveAll_map]
  by_cases hk : a ∈ g.keys
  · obtain ⟨o, ho⟩ := mem_keys_find hk
    have haddr : a ∈ (writeLoop g [] roots).1.map SerializedBlock.old_address := by
      have hmm := keys_mem_save_addresses curV g roots hreach a hk
      simpa [save] using hmm
    obtain ⟨b, hbmem, hba⟩ := List.mem_map.mp haddr
    obtain ⟨o', ho', hbo, _⟩ := hsound b hbmem
    rw [hba] at ho' hbo
    have ho'' : o' = o := by
      rw [ho] at ho'
      exact (Option.some.inj ho').symm
    subst ho''
    have hnodupA : ((writeLoop g [] roots).1.map SerializedBlock.old_address).Nodup := by
      have hmm := save_addresses_nodup curV g roots
      simpa [save] using hmm
    have hlook := lookupAddr_map_blocks_some
      (fun blk => resolveObj ((writeLoop g [] roots).1.map SerializedBlock.old_address)
        (readObjOf reg al blk))
      (writeLoop g [] roots).1 b a hnodupA hbmem hba
    rw [hlook, ho]
    refine congrArg some ?_
    rw [hbo]
    have hom : o'.marked = false := hmarks _ (find_some_mem ho)
    have hrefs : ∀ rr ∈ o'.refs,
        resolveRef ((writeLoop g [] roots).1.map SerializedBlock.old_address) rr = rr := by
      intro rr hr
      cases rr with
      | none => rfl
      | some x =>
        have hx : x ∈ g.keys := hclosed _ (find_some_mem ho) _ hr x rfl
        have hxa : x ∈ (writeLoop g [] roots).1.map SerializedBlock.old_address := by
          have hmm := keys_mem_save_addresses curV g roots hreach x hx
          simpa [save] using hmm
        simp [resolveRef, hxa]
    cases hl : lookup reg o'.type_code with
    | none =>
      have hko := hknown _ (find_some_mem ho)
      rw [hl] at hko
      simp at hko
    | some d =>
      have hres := resolveTypeCode_of_lookup al hl
      have hro : readObjOf reg al (mkBlock a o') =
          ⟨o'.type_code, o'.payload, o'.refs, d.defaults, false⟩ := by
        unfold readObjOf
        simp only [mkBlock]
        rw [hres]
      beta_reduce
      rw [hro]
      unfold resolveObj resetRuntime
      rw [hres]
      simp only
      rw [map_id_of_eq _ o'.refs hrefs]
      obtain ⟨t0, pl0, rf0, rt0, mk0⟩ := o'
      simp_all
  · have hnone : g.find? a = none := (find_none_iff g a).mpr hk
    rw [hnone]
    have hlnone : lookupAddr ((writeLoop g [] roots).1.map
        (fun blk => (blk.old_address, resolveObj ((writeLoop g [] roots).1.map
          SerializedBlock.old_address) (readObjOf reg al blk)))) a = none := by
      apply lookupAddr_map_blocks_none
      intro blk hblk hba
      obtain ⟨o', ho', _, _⟩ := hsound blk hblk
      exact hk (hba ▸ find_some_mem_keys ho')
    simpa using hlnone

/-- Witness for claim C2: a one-block stream whose type code 9 is unknown to
a registry that only knows code 1 loads successfully, drops the object at
address 42, and reports the unknown code. -/
theorem claim_C2_witness :
    ∃ r : LoadResult,
      load [⟨1, []⟩] [] [] ⟨5, [⟨9, 42, 0, [], []⟩]⟩ = .ok r ∧
      r.graph.find? 42 = none ∧
      Diagnostic.unknownType 9 ∈ r.diagnostics :=
  claim_C2_unknown_type_tolerance [⟨1, []⟩] [] [] ⟨5, [⟨9, 42, 0, [], []⟩]⟩
    ⟨9, 42, 0, [], []⟩ (by decide) (by decide) (by decide) (by decide)
    (by intro t ht; exact absurd ht (List.not_mem_nil t))

/-- Witness for claim C1: a two-object graph (a root holding payload and a
reference to a shared child, with a populated runtime field) round-trips: the
load succeeds with no diagnostics and reproduces both objects with runtime
fields reset to the registered defaults. -/
theorem claim_C1_witness :
    ∃ r : LoadResult,
      load [⟨1, [7]⟩, ⟨2, []⟩] [] []
          (save 3 ⟨[(10, ⟨1, [3], [some 11], [9], false⟩),
            (11, ⟨2, [], [], [], false⟩)]⟩ [10]) = .ok r ∧
      r.diagnostics = [] ∧
      ∀ a : Nat, r.graph.find? a =
        ((⟨[(10, ⟨1, [3], [some 11], [9], false⟩),
          (11, ⟨2, [], [], [], false⟩)]⟩ : Graph).find? a).map
          (resetRuntime [⟨1, [7]⟩, ⟨2, []⟩] []) :=
  claim_C1_round_trip [⟨1, [7]⟩, ⟨2, []⟩] [] [] 3
    ⟨[(10, ⟨1, [3], [some 11], [9], false⟩), (11, ⟨2, [], [], [], false⟩)]⟩ [10]
    (by decide)
    (by
      intro p hp r hr x hx
      rcases List.mem_cons.mp hp with rfl | hp2
      · rcases List.mem_cons.mp hr with rfl | hr2
        · cases hx
          decide
        · exact absurd hr2 (List.not_mem_nil r)
      · rcases List.mem_cons.mp hp2 with rfl | hp3
        · exact absurd hr (List.not_mem_nil r)
        · exact absurd hp3 (List.not_mem_nil p))
    (by
      intro a ha
      have ha' : a = 10 ∨ a = 11 := by
        simpa [Graph.keys] using ha
      rcases ha' with rfl | rfl
      · exact Reaches.root (by decide) (by decide)
      · have hf : (⟨[(10, ⟨1, [3], [some 11], [9], false⟩),
            (11, ⟨2, [], [], [], false⟩)]⟩ : Graph).find? 10 =
            some ⟨1, [3], [some 11], [9], false⟩ := by decide
        exact Reaches.step (Reaches.root (by decide) (by decide)) hf (by decide) (by decide))
    (by decide)
    (by intro t ht; exact absurd ht (List.not_mem_nil t))

end Persist

/-- Claim C4: for every type code, the Type Registry lookup is a total
function returning an Option descriptor: it never fails, and returns `none`
exactly when the code is absent from the registry, a normal result. -/
theorem claim_C4_lookup_total (reg : Persist.Registry) (code : Nat) :
    Persist.lookup reg code = none ↔ code ∉ reg.map Persist.TypeDescriptor.code :=
  Persist.lookup_eq_none_iff reg code

/-- Claim C7: one Area's load steps through
RAW_ALLOCATED, REFERENCES_RESOLVED, VERSIONED and then exactly one of the two
POST_LINKED outcomes; the pipeline driver makes every transition of the step
relation and offers no transition out of the two terminal states. -/
theorem claim_C7_area_state_machine :
    (∀ pruned : Bool,
      Persist.areaLoadNext .rawAllocated pruned = some .referencesResolved ∧
      Persist.areaLoadNext .referencesResolved pruned = some .versioned ∧
      Persist.areaLoadNext .versioned pruned =
        some (if pruned then .postLinkedPruned else .postLinkedValid) ∧
      Persist.areaLoadNext .postLinkedValid pruned = none ∧
      Persist.areaLoadNext .postLinkedPruned pruned = none) ∧
    (∀ (s s' : Persist.AreaLoadState) (pruned : Bool),
      Persist.areaLoadNext s pruned = some s' → Persist.AreaLoadStep s s') := by
  constructor
  · intro pruned
    cases pruned <;> simp [Persist.areaLoadNext]
  · intro s s' pruned h
    cases s <;> cases pruned <;> simp [Persist.areaLoadNext] at h <;> subst h <;>
      first
        | exact Persist.AreaLoadStep.resolve
        | exact Persist.AreaLoadStep.version
        | exact Persist.AreaLoadStep.linkValid
        | exact Persist.AreaLoadStep.linkPruned

/-- Witness for claim C7: the pipeline driver takes the pruning transition
out of the VERSIONED state. -/
theorem claim_C7_witness :
    Persist.AreaLoadStep .versioned .postLinkedPruned :=
  claim_C7_area_state_machine.2 .versioned .postLinkedPruned true rfl

namespace Snap

theorem lockedPreserved_refl (pf : Nat) (l : V3) : lockedPreserved pf l l :=
  ⟨fun _ => rfl, fun _ => rfl, fun _ => rfl⟩

theorem lockedPreserved_assign (pf : Nat) (old new : V3) :
    lockedPreserved pf old (applyLockedAssign pf old new) := by
  refine ⟨?_, ?_, ?_⟩ <;> intro h <;> simp [applyLockedAssign, h]

theorem lockedPreserved_add (pf : Nat) (old delta : V3) :
    lockedPreserved pf old (applyLockedAdd pf old delta) := by
  refine ⟨?_, ?_, ?_⟩ <;> intro h <;> simp [applyLockedAdd, h]

theorem snapGridPoseChan_locked (visible : PoseChan → Bool) (gridTarget : PoseChan → V3)
    (pc : PoseChan) :
    lockedPreserved pc.protectflag pc.loc (snapGridPoseChan visible gridTarget pc).loc := by
  unfold snapGridPoseChan
  split
  · split
    · split
      · exact lockedPreserved_assign pc.protectflag pc.loc (gridTarget pc)
      · exact lockedPreserved_refl _ _
    · exact lockedPreserved_refl _ _
  · exact lockedPreserved_refl _ _

theorem snapGridObj_locked (gridTarget : SObj → V3) (ob : SObj) :
    lockedPreserved ob.protectflag ob.loc (snapGridObj gridTarget ob).loc :=
  lockedPreserved_assign ob.protectflag ob.loc (gridTarget ob)

theorem snapLocPoseChan_locked (parentTransformed : PoseChan → Bool)
    (cursorPose : PoseChan → V3) (pc : PoseChan) :
    lockedPreserved pc.protectflag pc.loc
      (snapLocPoseChan true parentTransformed cursorPose pc).loc := by
  unfold snapLocPoseChan
  split
  · exact lockedPreserved_assign pc.protectflag pc.loc (cursorPose pc)
  · exact lockedPreserved_refl _ _

theorem snapLocObj_locked (skipChild : SObj → Bool) (cursorParent : SObj → V3)
    (ob : SObj) :
    lockedPreserved ob.protectflag ob.loc
      (snapLocObj true skipChild cursorParent ob).loc := by
  unfold snapLocObj
  split
  · exact lockedPreserved_refl _ _
  · exact lockedPreserved_add ob.protectflag ob.loc (cursorParent ob)

theorem tagTransform_protect (visible : PoseChan → Bool) (pc : PoseChan) :
    (tagTransform visible pc).protectflag = pc.protectflag ∧
      (tagTransform visible pc).loc = pc.loc := by
  unfold tagTransform
  split <;> exact ⟨rfl, rfl⟩

theorem snap_loc_pose_elem_locked (visible : PoseChan → Bool)
    (parentTransformed : PoseChan → Bool) (cursorPose : PoseChan → V3) (pc : PoseChan) :
    lockedPreserved pc.protectflag pc.loc
      (clearTransform (snapLocPoseChan true parentTransformed cursorPose
        (tagTransform visible pc))).loc := by
  have h2 := snapLocPoseChan_locked parentTransformed cursorPose (tagTransform visible pc)
  rw [(tagTransform_protect visible pc).1, (tagTransform_protect visible pc).2] at h2
  exact h2

theorem forall2_map_self {α β : Type} (R : α → β → Prop) (f : α → β) :
    ∀ l : List α, (∀ x ∈ l, R x (f x)) → List.Forall₂ R l (l.map f) := by
  intro l
  induction l with
  | nil => intro _; exact List.Forall₂.nil
  | cons x l ih =>
    intro h
    exact List.Forall₂.cons (h x (List.mem_cons_self _ _))
      (ih (fun y hy => h y (List.mem_cons_of_mem _ hy)))

theorem snap_loc_pose_eq_map (uts : Bool) (visible : PoseChan → Bool)
    (parentTransformed : PoseChan → Bool) (cursorPose : PoseChan → V3)
    (chans : List PoseChan) :
    snap_selected_to_location_pose uts visible parentTransformed cursorPose chans =
      chans.map (fun pc => clearTransform (snapLocPoseChan uts parentTransformed cursorPose
        (tagTransform visible pc))) := by
  unfold snap_selected_to_location_pose
  rw [List.map_map, List.map_map]
  rfl

/-- Claim C9: every snap site that honors the tool settings (both branches of
`snap_sel_to_grid_exec`, and `snap_selected_to_location` with
`use_toolsettings` true) leaves each location component locked by
`OB_LOCK_LOCX`/`OB_LOCK_LOCY`/`OB_LOCK_LOCZ` unchanged on every object and
pose channel; only unlocked components receive snapped values. -/
theorem claim_C9_protect_flags
    (visible : PoseChan → Bool) (gridTargetP : PoseChan → V3) (gridTargetO : SObj → V3)
    (parentTransformed : PoseChan → Bool) (cursorPose : PoseChan → V3)
    (skipChild : SObj → Bool) (cursorParent : SObj → V3)
    (chans : List PoseChan) (objs : List SObj) :
    List.Forall₂ (fun pc pc' => lockedPreserved pc.protectflag pc.loc pc'.loc)
      chans (snap_sel_to_grid_pose visible gridTargetP chans) ∧
    List.Forall₂ (fun ob ob' => lockedPreserved ob.protectflag ob.loc ob'.loc)
      objs (snap_sel_to_grid_objects gridTargetO objs) ∧
    List.Forall₂ (fun pc pc' => lockedPreserved pc.protectflag pc.loc pc'.loc)
      chans (snap_selected_to_location_pose true visible parentTransformed cursorPose chans) ∧
    List.Forall₂ (fun ob ob' => lockedPreserved ob.protectflag ob.loc ob'.loc)
      objs (snap_selected_to_location_objects true skipChild cursorParent objs) := by
  refine ⟨?_, ?_, ?_, ?_⟩
  · exact forall2_map_self _ _ chans (fun pc _ => snapGridPoseChan_locked visible gridTargetP pc)
  · exact forall2_map_self _ _ objs (fun ob _ => snapGridObj_locked gridTargetO ob)
  · rw [snap_loc_pose_eq_map]
    exact forall2_map_self _ _ chans
      (fun pc _ => snap_loc_pose_elem_locked visible parentTransformed cursorPose pc)
  · exact forall2_map_self _ _ objs (fun ob _ => snapLocObj_locked skipChild cursorParent ob)

/-- Witness for claim C9: a fully locked pose channel keeps its location
across the grid-snap pose pass on a concrete input. -/
theorem claim_C9_witness :
    List.Forall₂ (fun pc pc' => lockedPreserved pc.protectflag pc.loc pc'.loc)
      ([⟨0, 1, false, 7, ⟨1, 2, 3⟩⟩] : List PoseChan)
      (snap_sel_to_grid_pose (fun _ => true) (fun _ => ⟨4, 5, 6⟩)
        ([⟨0, 1, false, 7, ⟨1, 2, 3⟩⟩] : List PoseChan)) :=
  (claim_C9_protect_flags (fun _ => true) (fun _ => ⟨4, 5, 6⟩) (fun _ => ⟨0, 0, 0⟩)
    (fun _ => false) (fun _ => ⟨0, 0, 0⟩) (fun _ => false) (fun _ => ⟨0, 0, 0⟩)
    [⟨0, 1, false, 7, ⟨1, 2, 3⟩⟩] []).1

/-- Claim C8: the exec callback of `VIEW3D_OT_snap_selected_to_active`, in a
context with no active object or whose active center cannot be computed,
reports "No active element found!", returns `OPERATOR_CANCELLED`, and leaves
every object and pose-channel location unchanged. -/
theorem claim_C8_no_active_element (c : CtxModel) :
    (c.activeObject = none → snap_calc_active_center c false = none) ∧
    (snap_calc_active_center c false = none →
      snap_selected_to_active_exec c =
        (OPERATOR_CANCELLED, ["No active element found!"], c.scene)) := by
  constructor
  · intro h
    simp [snap_calc_active_center, h]
  · intro h
    simp [snap_selected_to_active_exec, h]

/-- Witness for claim C8: a concrete context with no active object cancels
with the report and an untouched scene. -/
theorem claim_C8_witness :
    snap_selected_to_active_exec
        ⟨none, ⟨[], [], false⟩, fun _ => true, fun _ => false,
          fun _ _ => v3zero, fun _ _ => v3zero, fun _ => false⟩ =
      (OPERATOR_CANCELLED, ["No active element found!"],
        (⟨[], [], false⟩ : SceneModel)) :=
  (claim_C8_no_active_element _).2 rfl

theorem foldl_acc_count (pts : List V3) :
    ∀ s : MinmaxAcc, (pts.foldl accMinmax s).count = s.count + pts.length := by
  induction pts with
  | nil => intro s; simp
  | cons p pts ih =>
    intro s
    simp only [List.foldl_cons, List.length_cons]
    rw [ih]
    simp [accMinmax]
    omega

theorem foldl_acc_centroid (pts : List V3) :
    ∀ s : MinmaxAcc, (pts.foldl accMinmax s).centroid = pts.foldl v3add s.centroid := by
  induction pts with
  | nil => intro s; rfl
  | cons p pts ih =>
    intro s
    simp only [List.foldl_cons]
    rw [ih]
    rfl

theorem foldl_acc_minv (pts : List V3) :
    ∀ s : MinmaxAcc, (pts.foldl accMinmax s).minv = pts.foldl v3min s.minv := by
  induction pts with
  | nil => intro s; rfl
  | cons p pts ih =>
    intro s
    simp only [List.foldl_cons]
    rw [ih]
    rfl

theorem foldl_acc_maxv (pts : List V3) :
    ∀ s : MinmaxAcc, (pts.foldl accMinmax s).maxv = pts.foldl v3max s.maxv := by
  induction pts with
  | nil => intro s; rfl
  | cons p pts ih =>
    intro s
    simp only [List.foldl_cons]
    rw [ih]
    rfl

theorem v3min_big (p : V3) (h : inBounds p) :
    v3min ⟨initMinmaxBound, initMinmaxBound, initMinmaxBound⟩ p = p := by
  obtain ⟨x, y, z⟩ := p
  obtain ⟨h1, h2, h3, h4, h5, h6⟩ := h
  simp only [v3min, V3.mk.injEq]
  exact ⟨min_eq_right h2, min_eq_right h4, min_eq_right h6⟩

theorem v3max_small (p : V3) (h : inBounds p) :
    v3max ⟨-initMinmaxBound, -initMinmaxBound, -initMinmaxBound⟩ p = p := by
  obtain ⟨x, y, z⟩ := p
  obtain ⟨h1, h2, h3, h4, h5, h6⟩ := h
  simp only [v3max, V3.mk.injEq]
  exact ⟨max_eq_right h1, max_eq_right h3, max_eq_right h5⟩

/-- Claim C10: `snap_curs_to_sel_ex` returns false and leaves the cursor
untouched when no point is collected; with points collected it returns true
and writes the midpoint of the accumulated bounds under
`V3D_AROUND_CENTER_BOUNDS`, and the arithmetic mean of the collected points
(centroid divided by count) under every other pivot. -/
theorem claim_C10_cursor_to_selection (pivot : Int) (pts : List V3) (cursor : V3) :
    (pts = [] → snap_curs_to_sel_ex pivot pts cursor = (false, cursor)) ∧
    (∀ (p : V3) (ps : List V3), pts = p :: ps → inBounds p →
      snap_curs_to_sel_ex pivot pts cursor =
        (true, if pivot = V3D_AROUND_CENTER_BOUNDS
          then v3mid (listMinV3 p ps) (listMaxV3 p ps)
          else v3scale (1 / ((pts.length : ℚ))) (listSumV3 pts))) := by
  constructor
  · intro h
    subst h
    rfl
  · intro p ps hpts hb
    subst hpts
    unfold snap_curs_to_sel_ex
    have hcount : (((p :: ps).foldl accMinmax initAcc).count) = ps.length + 1 := by
      rw [foldl_acc_count]
      simp [initAcc]
    have hmin : (((p :: ps).foldl accMinmax initAcc).minv) = listMinV3 p ps := by
      rw [foldl_acc_minv]
      simp only [List.foldl_cons]
      show List.foldl v3min
        (v3min ⟨initMinmaxBound, initMinmaxBound, initMinmaxBound⟩ p) ps = listMinV3 p ps
      rw [v3min_big p hb]
      rfl
    have hmax : (((p :: ps).foldl accMinmax initAcc).maxv) = listMaxV3 p ps := by
      rw [foldl_acc_maxv]
      simp only [List.foldl_cons]
      show List.foldl v3max
        (v3max ⟨-initMinmaxBound, -initMinmaxBound, -initMinmaxBound⟩ p) ps = listMaxV3 p ps
      rw [v3max_small p hb]
      rfl
    have hcent : (((p :: ps).foldl accMinmax initAcc).centroid) = listSumV3 (p :: ps) := by
      rw [foldl_acc_centroid]
      rfl
    simp only [hcount, hmin, hmax, hcent, List.length_cons]
    by_cases hpiv : pivot = V3D_AROUND_CENTER_BOUNDS <;> simp [hpiv]

/-- Witness for claim C10: one collected point within bounds makes the cursor
the mean of the singleton (the bounds branch not taken under pivot 3,
`V3D_AROUND_CENTER_MEDIAN`). -/
theorem claim_C10_witness :
    snap_curs_to_sel_ex 3 [⟨1, 2, 3⟩] v3zero =
      (true, if (3 : Int) = V3D_AROUND_CENTER_BOUNDS
        then v3mid (listMinV3 ⟨1, 2, 3⟩ []) (listMaxV3 ⟨1, 2, 3⟩ [])
        else v3scale (1 / ((([(⟨1, 2, 3⟩ : V3)] : List V3).length : ℚ)))
          (listSumV3 [⟨1, 2, 3⟩])) :=
  (claim_C10_cursor_to_selection 3 [⟨1, 2, 3⟩] v3zero).2 ⟨1, 2, 3⟩ [] rfl
    (by norm_num [inBounds, initMinmaxBound])

end Snap
